import Mathlib

/-!
# Verification of the oci-sysext rootfs assembly pipeline

Shallow embedding of the rootfs assembly pipeline of the `oci-sysext`
repository (package `sysextutils`, together with the helpers it uses from
`fileutils`): layer-diff computation (`calcSkipLayers`), the extraction loop
and metadata stamping (`createRootfs`), symlink normalization
(`adjustSymlinks`), binary relocation (`isStaticallyLinked`,
`relocateAndPatchBinaries`, `patchBinary`, `patchDependencies`,
`parseLddOutput`), disk-usage measurement (`DiscUsageMegaBytes`) and the
packaging driver (`CreateSysext`).

File-system effects and external processes are modelled by explicit event
traces and success oracles; pure Go string/path computations
(`path/filepath.Clean`, `Join`, `Dir`, `Base`, `strings.Fields`,
`strings.Contains`, `strings.TrimPrefix`, `strings.Split`) are ported
faithfully from the Go standard library so that every path the program
builds is computed exactly as the program computes it.
-/

namespace OciSysext

/-- Decidable equality of `Except` results, so concrete runs can be
checked by `decide`. -/
instance exceptDecEq {ε α : Type} [DecidableEq ε] [DecidableEq α] :
    DecidableEq (Except ε α) := fun x y =>
  match x, y with
  | .ok a, .ok b =>
    if h : a = b then .isTrue (by rw [h]) else .isFalse (fun c => h (Except.ok.inj c))
  | .error a, .error b =>
    if h : a = b then .isTrue (by rw [h]) else .isFalse (fun c => h (Except.error.inj c))
  | .ok _, .error _ => .isFalse (fun c => Except.noConfusion c)
  | .error _, .ok _ => .isFalse (fun c => Except.noConfusion c)

/-! ## Go string and path primitives -/

/-- `os.IsPathSeparator` on Linux: only `/` is a separator. -/
def isSep (c : Char) : Bool := c = '/'

/-- `strings.HasPrefix sub` on char lists: `hasPrefixL hay sub` is true iff
`sub` is a prefix of `hay`. -/
def hasPrefixL : List Char → List Char → Bool
  | _, [] => true
  | [], _ :: _ => false
  | a :: as, b :: bs => a = b && hasPrefixL as bs

/-- `strings.Contains` on char lists: `sub` occurs inside `hay`. -/
def containsL : List Char → List Char → Bool
  | [], sub => sub.isEmpty
  | a :: as, sub => hasPrefixL (a :: as) sub || containsL as sub

/-- `strings.Contains s sub`. -/
def strContains (s sub : String) : Bool := containsL s.toList sub.toList

/-- `strings.HasPrefix s pre`. -/
def hasPrefixS (s pre : String) : Bool := hasPrefixL s.toList pre.toList

/-- `strings.TrimPrefix s pre`: drop `pre` when it is a prefix, else return
`s` unchanged. -/
def trimPrefixS (s pre : String) : String :=
  if hasPrefixS s pre then ⟨s.toList.drop pre.toList.length⟩ else s

/-- Split a char list at every occurrence of one separator character,
keeping empty pieces — the semantics of Go `strings.Split` with a
single-character separator. -/
def splitCharL (sep : Char) : List Char → List (List Char)
  | [] => [[]]
  | c :: cs =>
    let r := splitCharL sep cs
    if c = sep then [] :: r
    else
      match r with
      | h :: t => (c :: h) :: t
      | [] => [[c]]

/-- `strings.Split s sep` for a one-character separator `sep`. -/
def strSplitChar (sep : Char) (s : String) : List String :=
  (splitCharL sep s.toList).map (fun l => ⟨l⟩)

/-- The ASCII white-space characters recognised by Go `unicode.IsSpace`
(the non-ASCII ones never occur in the texts the program splits). -/
def isSpaceGo (c : Char) : Bool :=
  c = ' ' || c = '\t' || c = '\n' || c = (Char.ofNat 11) || c = (Char.ofNat 12) || c = '\r'

/-- Split a char list at every character satisfying `p`, keeping empty
pieces. -/
def splitPL (p : Char → Bool) : List Char → List (List Char)
  | [] => [[]]
  | c :: cs =>
    let r := splitPL p cs
    if p c then [] :: r
    else
      match r with
      | h :: t => (c :: h) :: t
      | [] => [[c]]

/-- `strings.Fields`: split around runs of white space, dropping empty
pieces. -/
def fieldsGo (s : String) : List String :=
  ((splitPL isSpaceGo s.toList).filter (fun l => ¬ l.isEmpty)).map (fun l => ⟨l⟩)

/-! ### `path/filepath.Clean` (Unix rules), ported from the Go standard
library.  The output buffer is kept in reverse order; `dotdot` is the length
of the buffer prefix that `..` elements may not erase. -/

/-- The backtracking step of `Clean` for a `..` element: Go pops the last
buffer char and keeps popping while the char just popped is not a separator
and the buffer is still longer than `dotdot`. `prev` is the most recently
popped char, `r` the remaining (reversed) buffer. -/
def cleanBack (dotdot : Nat) : Char → List Char → List Char
  | _, [] => []
  | prev, d :: rest =>
    if (d :: rest).length > dotdot ∧ ¬ isSep prev then cleanBack dotdot d rest
    else d :: rest

/-- The main scanning loop of `Clean`.  `fuel` bounds the number of
iterations (each iteration consumes at least one input char, so
`input.length + 1` is enough); `rooted` records whether the original path
was absolute; `input` is the unread part of the path; `r` is the output
buffer in reverse; `dotdot` as in `cleanBack`. -/
def cleanLoop : Nat → Bool → List Char → List Char → Nat → List Char
  | 0, _, _, r, _ => r
  | _ + 1, _, [], r, _ => r
  | fuel + 1, rooted, c :: rest, r, dotdot =>
    if isSep c then
      cleanLoop fuel rooted rest r dotdot
    else if c = '.' ∧ (rest = [] ∨ isSep (rest.headD ' ')) then
      cleanLoop fuel rooted rest r dotdot
    else if c = '.' ∧ rest.headD ' ' = '.' ∧ (rest.tail = [] ∨ isSep (rest.tail.headD ' ')) then
      -- a ".." element
      if r.length > dotdot then
        let r' := match r with
          | d :: t => cleanBack dotdot d t
          | [] => r
        cleanLoop fuel rooted rest.tail r' dotdot
      else if ¬ rooted then
        let r' := if r.length > 0 then '.' :: '.' :: '/' :: r else '.' :: '.' :: r
        cleanLoop fuel rooted rest.tail r' r'.length
      else
        cleanLoop fuel rooted rest.tail r dotdot
    else
      -- a real path element: add a separator if needed, then copy the element
      let r' := if (rooted ∧ r.length ≠ 1) ∨ (¬ rooted ∧ r.length ≠ 0) then '/' :: r else r
      let elem := c :: rest.takeWhile (fun x => ¬ isSep x)
      cleanLoop fuel rooted (rest.dropWhile (fun x => ¬ isSep x)) (elem.reverse ++ r') dotdot

/-- `path/filepath.Clean` on Unix. -/
def clean (path : String) : String :=
  match path.toList with
  | [] => "."
  | c :: rest =>
    let rooted := isSep c
    let r :=
      if rooted then cleanLoop (rest.length + 1) true rest ['/'] 1
      else cleanLoop (path.toList.length + 1) false path.toList [] 0
    if r.isEmpty then "." else ⟨r.reverse⟩

/-- Concatenate with `/` between elements — `strings.Join elems "/"`. -/
def joinSlash : List String → String
  | [] => ""
  | [a] => a
  | a :: rest => a ++ "/" ++ joinSlash rest

/-- `path/filepath.Join`: skip leading empty elements, join the rest with
`/` and `Clean` the result. -/
def joinGo (elems : List String) : String :=
  match elems.dropWhile (fun e => e = "") with
  | [] => ""
  | l => clean (joinSlash l)

/-- Binary `filepath.Join`. -/
def join2 (a b : String) : String := joinGo [a, b]

/-- `filepath.IsAbs` on Unix. -/
def isAbsGo (path : String) : Bool := hasPrefixS path "/"

/-- `filepath.Base` on Unix: strip trailing separators, then take everything
after the last separator. -/
def baseGo (path : String) : String :=
  if path = "" then "."
  else
    let l := path.toList.reverse.dropWhile isSep
    if l.isEmpty then "/"
    else ⟨(l.takeWhile (fun c => ¬ isSep c)).reverse⟩

/-- `filepath.Dir` on Unix: everything up to and including the final
separator, cleaned (`Clean ""` gives `"."` when there is no separator). -/
def dirGo (path : String) : String :=
  clean ⟨(path.toList.reverse.dropWhile (fun c => ¬ isSep c)).reverse⟩

/-! ## Data model: manifests and the assembly environment -/

/-- One entry of the `layers` array of an image manifest
(`go-containerregistry`'s `v1.Descriptor`, the fields the program uses). -/
structure Layer where
  digest : String
  mediaType : String
  size : Int
  deriving DecidableEq, Repr

/-- An image manifest: the ordered layer list. -/
structure Manifest where
  layers : List Layer
  deriving DecidableEq, Repr

/-- A regular entry seen by the `DiscUsageMegaBytes` walk. -/
structure FileEnt where
  isDir : Bool
  size : Int
  deriving DecidableEq, Repr

/-- Observable side effects of the assembly pipeline, in program order. -/
inductive Ev
  | pull (img : String)
  | removeTree (dir : String)
  | mkdirDir (dir : String)
  | extract (tar : String) (dir : String)
  | adjustLinks (dir : String)
  | relocate (dir : String)
  | writeMarker (path content : String)
  | removeRaw (path : String)
  | truncate (size path : String)
  | mkfsExt4 (dir path : String)
  | resize2fs (path : String)
  | mksquashfs (dir path : String)
  | mkfsBtrfs (dir path : String)
  deriving DecidableEq, Repr

/-- The environment of one `create` run: external collaborators
(registry lookup/pull, hashing, manifest storage) and a success oracle for
every file-system or external-process step. -/
structure SysextEnv where
  sysextDir : String
  sysextRootfsDir : String
  /-- `getID`: md5 hex digest of a name (collaborator `crypto/md5`). -/
  getID : String → String
  /-- `imageutils.GetPath`: local storage dir of an image reference. -/
  getPath : String → String
  /-- `fileutils.ReadFile` + `json.Unmarshal` of a `manifest.json` path;
  `none` collapses the read- and parse-failure cases. -/
  manifestAt : String → Option Manifest
  /-- `fileutils.Exist` on an image directory. -/
  imageExists : String → Bool
  /-- Success of each effectful step. -/
  evOk : Ev → Bool
  /-- Regular entries of the finished tree, as seen by the du walk. -/
  treeFiles : List FileEnt

/-! ## `calcSkipLayers` and the extraction loop of `createRootfs` -/

/-- `calcSkipLayers` (sysextutils): 0 when there is no differential source
or it equals the target, otherwise the difference of the layer-list
lengths; manifest read/parse failures abort. -/
def calcSkipLayers (env : SysextEnv) (image imageSource : String) : Except String Int :=
  if image = imageSource ∨ imageSource = "" then .ok 0
  else
    match env.manifestAt (join2 (env.getPath image) "manifest.json") with
    | none => .error "manifest read error"
    | some m =>
      match env.manifestAt (join2 (env.getPath imageSource) "manifest.json") with
      | none => .error "manifest read error"
      | some s => .ok ((m.layers.length : Int) - (s.layers.length : Int))

/-- The tar file name of a layer:
`strings.Split(layer.Digest.String(), ":")[1] + ".tar.gz"` (index 1 exists
for well-formed `algorithm:hex` digests). -/
def layerTarName (l : Layer) : String :=
  ((strSplitChar ':' l.digest).getD 1 "") ++ ".tar.gz"

/-- The `for i, layer := range manifest.Layers` loop of `createRootfs`:
indices below `skip` are only logged; the rest are untarred into the tree
in order, aborting on the first failure. -/
def extractLayers (env : SysextEnv) (imageDir dir : String) (skip : Int) :
    List (Nat × Layer) → List Ev × Except String Unit
  | [] => ([], .ok ())
  | (i, layer) :: rest =>
    if (i : Int) < skip then extractLayers env imageDir dir skip rest
    else
      let e := Ev.extract (join2 imageDir (layerTarName layer)) dir
      if env.evOk e then
        let r := extractLayers env imageDir dir skip rest
        (e :: r.1, r.2)
      else ([e], .error "layer extraction failed")

/-- The marker file content written by `createRootfs`. -/
def markerContent : String := "ID=_any\nEXTENSION_RELOAD_MANAGER=1\n"

/-- `createRootfs` (sysextutils, current revision): compute the skip count,
create the tree directory, read the manifest, validate the skip count,
extract the non-skipped layers in order, normalize symlinks, relocate
binaries, apply the (log-only) retention policy and stamp the
extension-release marker.  Returns the event trace and the result. -/
def createRootfs (env : SysextEnv) (image name imageSource : String) :
    List Ev × Except String Unit :=
  match calcSkipLayers env image imageSource with
  | .error e => ([], .error e)
  | .ok skip =>
    let dir := join2 env.sysextRootfsDir (env.getID image)
    let eMk := Ev.mkdirDir dir
    if ¬ env.evOk eMk then ([eMk], .error "mkdir failed")
    else
      let imageDir := env.getPath image
      match env.manifestAt (join2 imageDir "manifest.json") with
      | none => ([eMk], .error "manifest read error")
      | some manifest =>
        if skip < 0 ∨ skip > (manifest.layers.length : Int) then
          ([eMk], .error "invalid number of layers to skip")
        else
          let ex := extractLayers env imageDir dir skip manifest.layers.enum
          match ex.2 with
          | .error e => (eMk :: ex.1, .error e)
          | .ok _ =>
            let eAdj := Ev.adjustLinks dir
            if ¬ env.evOk eAdj then (eMk :: ex.1 ++ [eAdj], .error "adjust symlinks failed")
            else
              let eRel := Ev.relocate dir
              if ¬ env.evOk eRel then
                (eMk :: ex.1 ++ [eAdj, eRel], .error "relocate failed")
              else
                -- retention policy: the removal of top-level entries other
                -- than usr and opt is commented out in the source; it only
                -- logs, so no event is emitted here
                let eMk2 := Ev.mkdirDir (join2 dir "/usr/lib/extension-release.d/")
                if ¬ env.evOk eMk2 then
                  (eMk :: ex.1 ++ [eAdj, eRel, eMk2], .error "mkdir failed")
                else
                  let mpath := joinGo [dir, "/usr/lib/extension-release.d/",
                    "extension-release." ++ name]
                  let eW := Ev.writeMarker mpath markerContent
                  if env.evOk eW then
                    (eMk :: ex.1 ++ [eAdj, eRel, eMk2, eW], .ok ())
                  else
                    (eMk :: ex.1 ++ [eAdj, eRel, eMk2, eW], .error "write marker failed")

/-! ## `DiscUsageMegaBytes` and the packaging driver `CreateSysext` -/

/-- The byte total accumulated by the `DiscUsageMegaBytes` walk: sizes of
all non-directory entries. -/
def discUsage (files : List FileEnt) : Int :=
  (files.map (fun f => if f.isDir then 0 else f.size)).sum

/-- `roundDivHalfAway a b` is Go `math.Round(float64(a)/b)` for a positive
divisor `b`: round to nearest, halves away from zero.  Exact for the values
reached here, since a float64 holds byte counts below `2^53` exactly and
division by `1024` only shifts the exponent; see
`roundDivHalfAway_eq_floor` for the floor characterisation. -/
def roundDivHalfAway (a b : ℤ) : ℤ :=
  if 0 ≤ a then (2 * a + b) / (2 * b) else -((2 * (-a) + b) / (2 * b))

/-- `fileutils.DiscUsageMegaBytes`: `%.0fM` of
`math.Round(bytes/1024/1024) + 32`. -/
def discUsageMegaBytes (files : List FileEnt) : String :=
  toString (roundDivHalfAway (discUsage files) (1024 * 1024) + 32) ++ "M"

/-- The `imageutils.Pull`-if-absent step of `CreateSysext`.  `pulled`
records whether this run already pulled the image, so the second
occurrence of the step sees the image present. -/
def ensureImage (env : SysextEnv) (img : String) (pulled : Bool) :
    List Ev × Except String Unit × Bool :=
  if env.imageExists (env.getPath img) ∨ pulled then ([], .ok (), pulled)
  else
    let e := Ev.pull img
    if env.evOk e then ([e], .ok (), true) else ([e], .error "pull failed", pulled)

/-- `CreateSysext` (sysextutils, current revision): reject unsupported
filesystem kinds first, default the differential source to the target,
ensure the source image is present, clear the tree, run `createRootfs`,
then package the tree with the format-specific external tool. -/
def CreateSysext (env : SysextEnv) (image name fs imageSource : String) :
    List Ev × Except String Unit :=
  if fs ≠ "squashfs" ∧ fs ≠ "btrfs" ∧ fs ≠ "ext4" then
    ([], .error "unsupported fs type")
  else
    let src := if imageSource = "" then image else imageSource
    let s1 := if src ≠ image then ensureImage env src false else ([], .ok (), false)
    match s1.2.1 with
    | .error e => (s1.1, .error e)
    | .ok _ =>
      let eClean := Ev.removeTree (join2 env.sysextRootfsDir (env.getID image))
      if ¬ env.evOk eClean then (s1.1 ++ [eClean], .error "remove rootfs failed")
      else
        let s2 := ensureImage env src s1.2.2
        match s2.2.1 with
        | .error e => (s1.1 ++ eClean :: s2.1, .error e)
        | .ok _ =>
          let cr := createRootfs env image name src
          match cr.2 with
          | .error e => (s1.1 ++ eClean :: s2.1 ++ cr.1, .error e)
          | .ok _ =>
            let eMkS := Ev.mkdirDir env.sysextDir
            if ¬ env.evOk eMkS then
              (s1.1 ++ eClean :: s2.1 ++ cr.1 ++ [eMkS], .error "mkdir failed")
            else
              let raw := join2 env.sysextDir (name ++ ".raw")
              -- the error of os.Remove is discarded in the source
              let pre := s1.1 ++ eClean :: s2.1 ++ cr.1 ++ [eMkS, Ev.removeRaw raw]
              let dir := join2 env.sysextRootfsDir (env.getID image)
              if fs = "squashfs" then
                let e := Ev.mksquashfs dir raw
                (pre ++ [e], if env.evOk e then .ok () else .error "mksquashfs failed")
              else if fs = "btrfs" then
                let e := Ev.mkfsBtrfs dir raw
                (pre ++ [e], if env.evOk e then .ok () else .error "mkfs.btrfs failed")
              else
                -- fs = "ext4": size the raw file from the tree usage,
                -- format it, then shrink it
                let size := discUsageMegaBytes env.treeFiles
                let eT := Ev.truncate size raw
                if ¬ env.evOk eT then (pre ++ [eT], .error "truncate failed")
                else
                  let eM := Ev.mkfsExt4 dir raw
                  if ¬ env.evOk eM then (pre ++ [eT, eM], .error "mkfs.ext4 failed")
                  else
                    let eR := Ev.resize2fs raw
                    if ¬ env.evOk eR then (pre ++ [eT, eM, eR], .error "resize2fs failed")
                    else (pre ++ [eT, eM, eR], .ok ())

/-! ## `adjustSymlinks`: the per-entry rewrite decision -/

/-- A symlink found by the `adjustSymlinks` walk: its own location and its
current target string. -/
structure SymlinkEntry where
  path : String
  target : String
  deriving DecidableEq, Repr

/-- The per-entry body of `adjustSymlinks`.  `statExists t` models
`¬ os.IsNotExist` of `os.Stat t`.  Returns the entry after the walk visits
it (the path never changes) and whether it was rewritten (removed and
recreated): an absolute target is always re-anchored to
`Join(rootfsDir, TrimPrefix(target, "/"))`; a relative target is resolved
against the entry's own directory and re-anchored to
`Join(rootfsDir, target)` only when the resolved path does not exist. -/
def adjustSymlinkEntry (rootfsDir : String) (statExists : String → Bool)
    (e : SymlinkEntry) : SymlinkEntry × Bool :=
  if isAbsGo e.target then
    (⟨e.path, join2 rootfsDir (trimPrefixS e.target "/")⟩, true)
  else
    let relativeTarget := join2 (dirGo e.path) e.target
    if ¬ statExists relativeTarget then
      (⟨e.path, join2 rootfsDir e.target⟩, true)
    else (e, false)

/-! ## Binary relocation: classification, patching, dependency copying -/

/-- The `.interp` section of an ELF file as `isStaticallyLinked` probes it:
absent, present but unreadable, or present with data. -/
inductive InterpSec
  | absent
  | unreadable
  | hasData (data : String)
  deriving DecidableEq, Repr

/-- The ELF header type values the classifier distinguishes. -/
inductive ElfType
  | exec
  | dyn
  | rel
  | other
  deriving DecidableEq, Repr

/-- A regular file (or directory) met by the relocation walk.  `elf = none`
means the file cannot be opened and parsed as ELF. -/
structure FileNode where
  path : String
  isDir : Bool
  elf : Option (ElfType × InterpSec)
  deriving DecidableEq, Repr

/-- `isELFExecutable`: the file parses as ELF and its type is `ET_EXEC` or
`ET_DYN`. -/
def isELFExecutable (f : FileNode) : Bool :=
  match f.elf with
  | none => false
  | some (t, _) => t = ElfType.exec || t = ElfType.dyn

/-- `isStaticallyLinked`: unopenable files count as dynamic; a missing or
unreadable `.interp` section, or one with empty data, counts as static. -/
def isStaticallyLinked (f : FileNode) : Bool :=
  match f.elf with
  | none => false
  | some (_, InterpSec.absent) => true
  | some (_, InterpSec.unreadable) => true
  | some (_, InterpSec.hasData d) => d.length = 0

/-- External actions of the relocation pass: the two `patchelf` invocations
and the dependency copy. -/
inductive RelocAction
  | setInterp (interp path : String)
  | setRpath (rpath path : String)
  | copyLib (src dst : String)
  deriving DecidableEq, Repr

/-- Environment of the relocation pass: the `ldd` collaborator, a success
oracle for external actions, and initial file existence (`os.Stat`). -/
structure RelocEnv where
  lddOut : String → Option String
  cmdOk : RelocAction → Bool
  exists0 : String → Bool

/-- The fixed interpreter path `patchBinary` writes (the tree-relative
variant is commented out in the source as non-working). -/
def loaderPath : String := "/lib64/ld-linux-x86-64.so.2"

/-- `patchBinary`: skip statically linked binaries, otherwise run
`patchelf --set-interpreter` with the fixed loader path and
`patchelf --set-rpath` with `Join(newRootPath, "lib")`, aborting on the
first failure. -/
def patchBinary (env : RelocEnv) (root : String) (f : FileNode) :
    List RelocAction × Except String Unit :=
  if isStaticallyLinked f then ([], .ok ())
  else
    let a1 := RelocAction.setInterp loaderPath f.path
    if env.cmdOk a1 then
      let a2 := RelocAction.setRpath (join2 root "lib") f.path
      if env.cmdOk a2 then ([a1, a2], .ok ())
      else ([a1, a2], .error "patchelf set-rpath failed")
    else ([a1], .error "patchelf set-interpreter failed")

/-- One line of `ldd` output: kept iff it has more than two fields, the
second contains `=>` and the third is not `not`; the third field is the
resolved library path. -/
def parseLddLine (line : String) : Option String :=
  let parts := fieldsGo line
  if parts.length > 2 ∧ strContains (parts.getD 1 "") "=>" ∧ parts.getD 2 "" ≠ "not"
  then some (parts.getD 2 "") else none

/-- `parseLddOutput`: the kept third fields of all lines, in order. -/
def parseLddOutput (output : String) : List String :=
  (strSplitChar '\n' output).filterMap parseLddLine

/-- The per-library loop of `patchDependencies`.  `copied` is the list of
destinations copied earlier in this pass (they exist now even if
`exists0` says otherwise).  Each library is copied to
`Join(Join(root, "lib"), Base lib)` unless that path exists, and then
`patchelf --set-rpath` is applied to the destination unconditionally. -/
def patchDepsLoop (env : RelocEnv) (root : String) :
    List String → List String → List RelocAction × List String × Except String Unit
  | [], copied => ([], copied, .ok ())
  | lib :: rest, copied =>
    let newLibPath := join2 root "lib"
    let dst := join2 newLibPath (baseGo lib)
    if ¬ (env.exists0 dst || copied.contains dst) then
      let a := RelocAction.copyLib lib dst
      if env.cmdOk a then
        let b := RelocAction.setRpath newLibPath dst
        if env.cmdOk b then
          let r := patchDepsLoop env root rest (dst :: copied)
          (a :: b :: r.1, r.2.1, r.2.2)
        else ([a, b], dst :: copied, .error "patchelf set-rpath failed")
      else ([a], copied, .error "copy library failed")
    else
      let b := RelocAction.setRpath newLibPath dst
      if env.cmdOk b then
        let r := patchDepsLoop env root rest copied
        (b :: r.1, r.2.1, r.2.2)
      else ([b], copied, .error "patchelf set-rpath failed")

/-- `patchDependencies`: run `ldd` on the binary, parse its output and
process every resolved library. -/
def patchDependencies (env : RelocEnv) (root path : String) (copied : List String) :
    List RelocAction × List String × Except String Unit :=
  match env.lddOut path with
  | none => ([], copied, .error "ldd failed")
  | some out => patchDepsLoop env root (parseLddOutput out) copied

/-- The walk of `relocateAndPatchBinaries`: non-directory ELF executables
that are not statically linked get `patchBinary` then `patchDependencies`;
everything else is skipped; the first error aborts the walk. -/
def relocWalk (env : RelocEnv) (root : String) :
    List FileNode → List String → List RelocAction × Except String Unit
  | [], _ => ([], .ok ())
  | f :: rest, copied =>
    if ¬ f.isDir ∧ isELFExecutable f then
      if isStaticallyLinked f then relocWalk env root rest copied
      else
        let pb := patchBinary env root f
        match pb.2 with
        | .error e => (pb.1, .error e)
        | .ok _ =>
          let pd := patchDependencies env root f.path copied
          match pd.2.2 with
          | .error e => (pb.1 ++ pd.1, .error e)
          | .ok _ =>
            let r := relocWalk env root rest pd.2.1
            (pb.1 ++ pd.1 ++ r.1, r.2)
    else relocWalk env root rest copied

/-- `relocateAndPatchBinaries` over a snapshot of the tree in walk order. -/
def relocateAndPatchBinaries (env : RelocEnv) (root : String) (tree : List FileNode) :
    List RelocAction × Except String Unit :=
  relocWalk env root tree []

/-! ## Concrete sample data used to evaluate the theorems -/

/-- A layer with a given digest. -/
def sampleLayer (d : String) : Layer :=
  ⟨d, "application/vnd.oci.image.layer.v1.tar+gzip", 10⟩

/-- A five-layer target manifest. -/
def mA : Manifest :=
  ⟨[sampleLayer "sha256:l1", sampleLayer "sha256:l2", sampleLayer "sha256:l3",
    sampleLayer "sha256:l4", sampleLayer "sha256:l5"]⟩

/-- A three-layer source manifest sharing the leading digests of `mA`. -/
def mB : Manifest :=
  ⟨[sampleLayer "sha256:l1", sampleLayer "sha256:l2", sampleLayer "sha256:l3"]⟩

/-- A one-layer manifest, smaller than `mB`. -/
def mC : Manifest := ⟨[sampleLayer "sha256:x1"]⟩

/-- A concrete assembly environment: images `img` (5 layers), `src`
(3 layers) and `tiny` (1 layer) are present; every effectful step
succeeds; the finished tree holds one 100 MiB file. -/
def envA : SysextEnv where
  sysextDir := "/home/u/.local/share/oci-sysext/sysexts"
  sysextRootfsDir := "/home/u/.local/share/oci-sysext/sysexts-rootfs"
  getID := fun n => if n = "img" then "aaa111" else "bbb222"
  getPath := fun n => "/images/" ++ n
  manifestAt := fun p =>
    if p = "/images/img/manifest.json" then some mA
    else if p = "/images/src/manifest.json" then some mB
    else if p = "/images/tiny/manifest.json" then some mC
    else none
  imageExists := fun _ => true
  evOk := fun _ => true
  treeFiles := [⟨false, 104857600⟩]

/-- A dynamically linked ELF executable at `/t/bin/app`. -/
def appNode : FileNode :=
  ⟨"/t/bin/app", false, some (ElfType.exec, InterpSec.hasData "/lib64/ld-linux-x86-64.so.2")⟩

/-- A statically linked ELF shared object (no `.interp` section) already
present in the tree's lib directory. -/
def libNode : FileNode :=
  ⟨"/t/lib/libx.so", false, some (ElfType.dyn, InterpSec.absent)⟩

/-- Sample `ldd` output: one resolved dependency, one unresolved
(`not found`) dependency and a vdso line with no `=>` path. -/
def lddSample : String :=
  "\tlibx.so => /usr/lib/libx.so (0x00007f5e)\n\tlibzzz.so => not found\n\tlinux-vdso.so.1 (0x0001)"

/-- A concrete relocation environment over the tree rooted at `/t`:
`ldd` reports `lddSample` for the app, all external commands succeed, and
exactly the two tree files exist initially. -/
def relocEnvA : RelocEnv where
  lddOut := fun p => if p = "/t/bin/app" then some lddSample else some ""
  cmdOk := fun _ => true
  exists0 := fun p => p = "/t/bin/app" || p = "/t/lib/libx.so"

/-! ## Helper lemmas -/

/-- `Join(a, b) = Clean(a + "/" + b)` whenever `a` is non-empty. -/
theorem join2_eq_clean (a b : String) (ha : a ≠ "") :
    join2 a b = clean (a ++ "/" ++ b) := by
  unfold join2 joinGo
  rw [List.dropWhile_cons]
  simp [ha, joinSlash]

/-- For non-negative `a` and positive `b`, `roundDivHalfAway a b` is the
floor of `a/b + 1/2`: rounding to the nearest integer. -/
theorem roundDivHalfAway_eq_floor (a b : ℤ) (ha : 0 ≤ a) (hb : 0 < b) :
    roundDivHalfAway a b = ⌊(a : ℚ) / (b : ℚ) + 1 / 2⌋ := by
  unfold roundDivHalfAway
  rw [if_pos ha]
  have hbq : (b : ℚ) ≠ 0 := by exact_mod_cast hb.ne'
  have hcast : ((2 * b).toNat : ℤ) = 2 * b := Int.toNat_of_nonneg (by omega)
  have hrw : (a : ℚ) / (b : ℚ) + 1 / 2
      = ((2 * a + b : ℤ) : ℚ) / (((2 * b).toNat : ℕ) : ℚ) := by
    have : (((2 * b).toNat : ℕ) : ℚ) = ((2 * b : ℤ) : ℚ) := by exact_mod_cast hcast
    rw [this]
    push_cast
    field_simp
    ring
  rw [hrw, Rat.floor_intCast_div_natCast, hcast]

/-! ## C1: the skip count -/

/-- C1.  `calcSkipLayers` returns 0 when no source image is given or the
source equals the target, and otherwise the length of the target's layer
list minus the length of the source's layer list — an exact integer
difference over lengths only: no clamping (the result may be negative) and
no digest comparison. -/
theorem calcSkipLayers_spec (env : SysextEnv) (image imageSource : String)
    (mT mS : Manifest)
    (hT : env.manifestAt (join2 (env.getPath image) "manifest.json") = some mT)
    (hS : env.manifestAt (join2 (env.getPath imageSource) "manifest.json") = some mS) :
    ((imageSource = "" ∨ image = imageSource) →
       calcSkipLayers env image imageSource = .ok 0) ∧
    (imageSource ≠ "" → image ≠ imageSource →
       calcSkipLayers env image imageSource
         = .ok ((mT.layers.length : ℤ) - (mS.layers.length : ℤ))) := by
  constructor
  · intro h
    unfold calcSkipLayers
    rcases h with h | h <;> simp [h]
  · intro h1 h2
    unfold calcSkipLayers
    rw [if_neg (by tauto), hT, hS]

/-- Witness for C1: the five-layer image against the three-layer source
yields skip count 2; the hypotheses hold in the concrete store `envA`. -/
theorem calcSkipLayers_spec_witness : calcSkipLayers envA "img" "src" = .ok 2 := by
  have h := (calcSkipLayers_spec envA "img" "src" mA mB (by decide) (by decide)).2
    (by decide) (by decide)
  exact h.trans (by decide)

/-! ## C2: trailing layers are extracted in order -/

/-- The extraction loop over `enumFrom n`, when every untar succeeds:
it emits exactly one extract event per layer of index `≥ skip`, in manifest
order, all into the same tree directory. -/
theorem extractLayers_enumFrom_ok (env : SysextEnv) (imageDir dir : String) (skip : ℤ)
    (hok : ∀ tar, env.evOk (Ev.extract tar dir) = true) :
    ∀ (layers : List Layer) (n : Nat),
      extractLayers env imageDir dir skip (List.enumFrom n layers)
        = ((layers.drop (skip - n).toNat).map
            (fun l => Ev.extract (join2 imageDir (layerTarName l)) dir), .ok ()) := by
  intro layers
  induction layers with
  | nil => intro n; simp [extractLayers, List.enumFrom]
  | cons l rest ih =>
    intro n
    by_cases hc : (n : ℤ) < skip
    · have h1 : (skip - (n : ℤ)).toNat = (skip - ((n + 1 : ℕ) : ℤ)).toNat + 1 := by
        push_cast
        omega
      rw [List.enumFrom]
      unfold extractLayers
      rw [if_pos hc, ih (n + 1), h1]
      rfl
    · have h0 : (skip - (n : ℤ)).toNat = 0 := by omega
      have h0' : (skip - ((n + 1 : ℕ) : ℤ)).toNat = 0 := by push_cast; omega
      rw [List.enumFrom]
      unfold extractLayers
      rw [if_neg hc]
      simp only [hok, if_true, ih (n + 1), h0, h0', List.drop_zero, List.map_cons]

/-- C2.  For a manifest of `N` layers and any skip count in `[0, N]`, the
assembly loop of `createRootfs` extracts exactly `N − skip` layer archives
— the trailing layers, indices `skip .. N−1`, in manifest order — each
into the same working directory `dir`. -/
theorem extractLayers_trailing (env : SysextEnv) (imageDir dir : String)
    (layers : List Layer) (skip : ℤ)
    (h0 : 0 ≤ skip) (hN : skip ≤ (layers.length : ℤ))
    (hok : ∀ tar, env.evOk (Ev.extract tar dir) = true) :
    extractLayers env imageDir dir skip layers.enum
      = ((layers.drop skip.toNat).map
          (fun l => Ev.extract (join2 imageDir (layerTarName l)) dir), .ok ())
    ∧ ((extractLayers env imageDir dir skip layers.enum).1.length : ℤ)
        = (layers.length : ℤ) - skip
    ∧ ∀ e ∈ (extractLayers env imageDir dir skip layers.enum).1,
        ∃ tar, e = Ev.extract tar dir := by
  have h := extractLayers_enumFrom_ok env imageDir dir skip hok layers 0
  have h0' : (skip - ((0 : ℕ) : ℤ)).toNat = skip.toNat := by omega
  rw [h0'] at h
  have hfst : extractLayers env imageDir dir skip layers.enum
      = ((layers.drop skip.toNat).map
          (fun l => Ev.extract (join2 imageDir (layerTarName l)) dir), .ok ()) := by
    rw [List.enum]
    exact h
  refine ⟨hfst, ?_, ?_⟩
  · rw [hfst]
    simp only [List.length_map, List.length_drop]
    omega
  · rw [hfst]
    intro e he
    rcases List.mem_map.1 he with ⟨l, _, rfl⟩
    exact ⟨join2 imageDir (layerTarName l), rfl⟩

/-- Witness for C2: skip count 2 on the five-layer manifest `mA` extracts
exactly the archives of layers 3, 4 and 5, in order, into the tree. -/
theorem extractLayers_trailing_witness :
    extractLayers envA "/images/img" "/r" 2 mA.layers.enum
      = ((mA.layers.drop 2).map
          (fun l => Ev.extract (join2 "/images/img" (layerTarName l)) "/r"), .ok ())
    ∧ ((extractLayers envA "/images/img" "/r" 2 mA.layers.enum).1.length : ℤ) = 3 := by
  have h := extractLayers_trailing envA "/images/img" "/r" mA.layers 2
    (by decide) (by decide) (fun tar => rfl)
  exact ⟨h.1, h.2.1.trans (by decide)⟩

/-! ## C3: out-of-range skip counts abort before any extraction -/

/-- C3.  When the computed skip count is negative or exceeds the number of
layers, `createRootfs` fails with the invalid-argument error
"invalid number of layers to skip", and its trace holds no extraction
event: only the `MkdirAll` of the tree directory happened before the
check. -/
theorem createRootfs_invalid_skip (env : SysextEnv) (image name imageSource : String)
    (mT mS : Manifest)
    (hT : env.manifestAt (join2 (env.getPath image) "manifest.json") = some mT)
    (hS : env.manifestAt (join2 (env.getPath imageSource) "manifest.json") = some mS)
    (hne1 : image ≠ imageSource) (hne2 : imageSource ≠ "")
    (hmk : env.evOk (Ev.mkdirDir (join2 env.sysextRootfsDir (env.getID image))) = true)
    (hbad : (mT.layers.length : ℤ) - (mS.layers.length : ℤ) < 0
         ∨ (mT.layers.length : ℤ) - (mS.layers.length : ℤ) > (mT.layers.length : ℤ)) :
    createRootfs env image name imageSource
      = ([Ev.mkdirDir (join2 env.sysextRootfsDir (env.getID image))],
         .error "invalid number of layers to skip")
    ∧ ∀ tar d, Ev.extract tar d ∉ (createRootfs env image name imageSource).1 := by
  have hskip : calcSkipLayers env image imageSource
      = .ok ((mT.layers.length : ℤ) - (mS.layers.length : ℤ)) := by
    unfold calcSkipLayers
    rw [if_neg (by tauto), hT, hS]
  have hmain : createRootfs env image name imageSource
      = ([Ev.mkdirDir (join2 env.sysextRootfsDir (env.getID image))],
         .error "invalid number of layers to skip") := by
    unfold createRootfs
    rw [hskip]
    simp only [hmk, Bool.not_true, if_false, hT]
    rw [if_pos hbad]
    simp
  refine ⟨hmain, ?_⟩
  rw [hmain]
  intro tar d hmem
  simp at hmem

/-- Witness for C3: the one-layer image `tiny` against the three-layer
source `src` gives skip count −2, which is rejected with no extraction. -/
theorem createRootfs_invalid_skip_witness :
    createRootfs envA "tiny" "name" "src"
      = ([Ev.mkdirDir (join2 envA.sysextRootfsDir (envA.getID "tiny"))],
         .error "invalid number of layers to skip")
    ∧ Ev.extract "/images/tiny/x1.tar.gz" "/r" ∉ (createRootfs envA "tiny" "name" "src").1 := by
  have h := createRootfs_invalid_skip envA "tiny" "name" "src" mC mB
    (by decide) (by decide) (by decide) (by decide) (by decide) (by decide)
  exact ⟨h.1, h.2 _ _⟩

/-! ## C5: symlink normalization -/

/-- A list is always a prefix of itself followed by anything. -/
theorem hasPrefixL_append (l m : List Char) : hasPrefixL (l ++ m) l = true := by
  induction l with
  | nil => cases m <;> simp [hasPrefixL]
  | cons a as ih => simp [hasPrefixL, ih]

/-- An absolute target starts with `/`, so prepending the tree root to its
tail after a slash is the same as appending the raw target to the root. -/
theorem append_drop_of_absolute (root t : String) (h : isAbsGo t = true) :
    root ++ "/" ++ (⟨t.toList.drop 1⟩ : String) = root ++ t := by
  have ht : ∃ rest, t.toList = '/' :: rest := by
    unfold isAbsGo hasPrefixS at h
    cases hl : t.toList with
    | nil => rw [hl] at h; simp [hasPrefixL] at h
    | cons c cs =>
      rw [hl] at h
      refine ⟨cs, ?_⟩
      have : c = '/' := by
        by_contra hc
        simp [hasPrefixL, hc] at h
      rw [this]
  rcases ht with ⟨rest, hrest⟩
  apply String.ext
  show (root.toList ++ ['/']) ++ t.toList.drop 1 = root.toList ++ t.toList
  rw [hrest]
  simp

/-- C5.  The per-entry decision of `adjustSymlinks`: an absolute target `T`
is always rewritten (same path, removed and recreated) to
`Clean(RootfsTree ++ T)`, i.e. re-anchored under the tree; a relative
target whose resolution against the symlink's own directory exists is left
untouched; a relative target whose resolution does not exist is rewritten
to `Clean(RootfsTree ++ "/" ++ T)`, the re-anchoring `Join(RootfsTree, T)`. -/
theorem adjustSymlinkEntry_spec (rootfsDir : String) (statExists : String → Bool)
    (e : SymlinkEntry) (hroot : rootfsDir ≠ "") :
    (isAbsGo e.target = true →
       adjustSymlinkEntry rootfsDir statExists e
         = (⟨e.path, clean (rootfsDir ++ e.target)⟩, true))
    ∧ (isAbsGo e.target = false →
       statExists (join2 (dirGo e.path) e.target) = true →
       adjustSymlinkEntry rootfsDir statExists e = (e, false))
    ∧ (isAbsGo e.target = false →
       statExists (join2 (dirGo e.path) e.target) = false →
       adjustSymlinkEntry rootfsDir statExists e
         = (⟨e.path, clean (rootfsDir ++ "/" ++ e.target)⟩, true)) := by
  refine ⟨?_, ?_, ?_⟩
  · intro habs
    unfold adjustSymlinkEntry
    rw [if_pos habs]
    have htrim : trimPrefixS e.target "/" = (⟨e.target.toList.drop 1⟩ : String) := by
      unfold trimPrefixS
      have habs' : hasPrefixS e.target "/" = true := habs
      rw [if_pos habs']
      rfl
    rw [htrim, join2_eq_clean _ _ hroot, append_drop_of_absolute _ _ habs]
  · intro habs hex
    unfold adjustSymlinkEntry
    rw [if_neg (by simp [habs]), if_neg (by simp [hex])]
  · intro habs hex
    unfold adjustSymlinkEntry
    rw [if_neg (by simp [habs]), if_pos (by simp [hex]), join2_eq_clean _ _ hroot]

/-- Witness for C5: an absolute symlink is re-anchored under the tree, a
healthy relative symlink is untouched, a broken relative symlink is
re-anchored. -/
theorem adjustSymlinkEntry_spec_witness :
    adjustSymlinkEntry "/r" (fun p => p = "/r/usr/lib/y") ⟨"/r/usr/bin/sh", "/bin/bash"⟩
      = (⟨"/r/usr/bin/sh", "/r/bin/bash"⟩, true)
    ∧ adjustSymlinkEntry "/r" (fun p => p = "/r/usr/lib/y") ⟨"/r/usr/bin/x", "../lib/y"⟩
      = (⟨"/r/usr/bin/x", "../lib/y"⟩, false)
    ∧ adjustSymlinkEntry "/r" (fun p => p = "/r/usr/lib/y") ⟨"/r/usr/bin/x", "../lib/z"⟩
      = (⟨"/r/usr/bin/x", "/lib/z"⟩, true) := by
  refine ⟨?_, ?_, ?_⟩
  · have h := (adjustSymlinkEntry_spec "/r" (fun p => p = "/r/usr/lib/y")
      ⟨"/r/usr/bin/sh", "/bin/bash"⟩ (by decide)).1 (by decide)
    exact h.trans (by decide)
  · exact (adjustSymlinkEntry_spec "/r" (fun p => p = "/r/usr/lib/y")
      ⟨"/r/usr/bin/x", "../lib/y"⟩ (by decide)).2.1 (by decide) (by decide)
  · have h := (adjustSymlinkEntry_spec "/r" (fun p => p = "/r/usr/lib/y")
      ⟨"/r/usr/bin/x", "../lib/z"⟩ (by decide)).2.2 (by decide) (by decide)
    exact h.trans (by decide)

/-! ## C4: loader path and RPATH after relocation (corrected) -/

/-- Counterexample to C4 as stated: a successful relocation pass over a
tree rooted at `/t` sets the dynamic binary's interpreter to the fixed
host path `/lib64/ld-linux-x86-64.so.2`, which does not point inside the
tree root. -/
theorem patchBinary_interp_cex :
    (relocateAndPatchBinaries relocEnvA "/t" [appNode]).2 = .ok ()
    ∧ RelocAction.setInterp loaderPath "/t/bin/app"
        ∈ (relocateAndPatchBinaries relocEnvA "/t" [appNode]).1
    ∧ hasPrefixS loaderPath "/t" = false := by decide

/-- C4 (amended).  For a dynamically linked binary, a successful
`patchBinary` run sets the RPATH to `newRootPath ++ "/lib"`, which does lie
inside the tree root, but sets the interpreter to the fixed
architecture-specific host loader path `/lib64/ld-linux-x86-64.so.2`
rather than a path inside the tree. -/
theorem patchBinary_paths (env : RelocEnv) (root : String) (f : FileNode)
    (hdyn : isStaticallyLinked f = false)
    (h1 : env.cmdOk (RelocAction.setInterp loaderPath f.path) = true)
    (h2 : env.cmdOk (RelocAction.setRpath (join2 root "lib") f.path) = true)
    (hclean : clean (root ++ "/lib") = root ++ "/lib") (hroot : root ≠ "") :
    patchBinary env root f
      = ([RelocAction.setInterp loaderPath f.path,
          RelocAction.setRpath (root ++ "/lib") f.path], .ok ())
    ∧ hasPrefixS (root ++ "/lib") root = true
    ∧ loaderPath = "/lib64/ld-linux-x86-64.so.2" := by
  have hj : join2 root "lib" = root ++ "/lib" := by
    rw [join2_eq_clean root "lib" hroot]
    have hstep : root ++ "/" ++ "lib" = root ++ "/lib" := by
      rw [String.append_assoc]
      exact congrArg (fun s => root ++ s) (by decide)
    rw [hstep, hclean]
  refine ⟨?_, ?_, rfl⟩
  · unfold patchBinary
    rw [hj] at h2
    simp only [hdyn, Bool.false_eq_true, if_false, h1, if_true, hj, h2]
  · unfold hasPrefixS
    have : (root ++ "/lib").toList = root.toList ++ "/lib".toList := rfl
    rw [this]
    exact hasPrefixL_append _ _

/-- Witness for the amended C4 at the concrete environment: the app's
patch actions are exactly the fixed interpreter and the in-tree RPATH. -/
theorem patchBinary_paths_witness :
    patchBinary relocEnvA "/t" appNode
      = ([RelocAction.setInterp loaderPath "/t/bin/app",
          RelocAction.setRpath "/t/lib" "/t/bin/app"], .ok ())
    ∧ hasPrefixS "/t/lib" "/t" = true := by
  have h := patchBinary_paths relocEnvA "/t" appNode
    (by decide) (by decide) (by decide) (by decide) (by decide)
  exact ⟨h.1.trans (by decide), h.2.1⟩

/-! ## C6: what the relocation pass can do to each file -/

/-- Every action of `patchBinary` targets the patched binary itself:
either the fixed-interpreter patch or the in-tree RPATH patch. -/
theorem patchBinary_actions (env : RelocEnv) (root : String) (f : FileNode) :
    ∀ a ∈ (patchBinary env root f).1,
      a = RelocAction.setInterp loaderPath f.path
      ∨ a = RelocAction.setRpath (join2 root "lib") f.path := by
  intro a ha
  unfold patchBinary at ha
  by_cases hs : isStaticallyLinked f = true
  · simp [hs] at ha
  · simp only [hs, if_false, Bool.not_eq_true] at ha
    by_cases h1 : env.cmdOk (RelocAction.setInterp loaderPath f.path) = true
    · rw [if_pos h1] at ha
      by_cases h2 : env.cmdOk (RelocAction.setRpath (join2 root "lib") f.path) = true
      · rw [if_pos h2] at ha
        rcases List.mem_cons.1 ha with h | h
        · exact Or.inl h
        · exact Or.inr (List.mem_singleton.1 h)
      · rw [if_neg h2] at ha
        rcases List.mem_cons.1 ha with h | h
        · exact Or.inl h
        · exact Or.inr (List.mem_singleton.1 h)
    · rw [if_neg h1] at ha
      exact Or.inl (List.mem_singleton.1 ha)

/-- Every action of the dependency loop concerns the copy destination
`Join(Join(root, "lib"), Base(lib))` of one of the listed libraries: a copy
(only when that destination did not exist) or the RPATH patch of the
destination. -/
theorem patchDepsLoop_actions (env : RelocEnv) (root : String) :
    ∀ (libs copied : List String) (a : RelocAction),
      a ∈ (patchDepsLoop env root libs copied).1 →
      ∃ lib ∈ libs,
        (a = RelocAction.copyLib lib (join2 (join2 root "lib") (baseGo lib))
          ∧ env.exists0 (join2 (join2 root "lib") (baseGo lib)) = false)
        ∨ a = RelocAction.setRpath (join2 root "lib")
              (join2 (join2 root "lib") (baseGo lib)) := by
  intro libs
  induction libs with
  | nil => intro copied a ha; simp [patchDepsLoop] at ha
  | cons lib rest ih =>
    intro copied a ha
    unfold patchDepsLoop at ha
    simp only [] at ha
    by_cases hg : (env.exists0 (join2 (join2 root "lib") (baseGo lib))
        || copied.contains (join2 (join2 root "lib") (baseGo lib))) = true
    · rw [if_neg (not_not_intro hg)] at ha
      by_cases hc : env.cmdOk (RelocAction.setRpath (join2 root "lib")
          (join2 (join2 root "lib") (baseGo lib))) = true
      · rw [if_pos hc] at ha
        rcases List.mem_cons.1 ha with h | h
        · exact ⟨lib, List.mem_cons_self _ _, Or.inr h⟩
        · rcases ih copied a h with ⟨l', hl', hcase⟩
          exact ⟨l', List.mem_cons_of_mem _ hl', hcase⟩
      · rw [if_neg hc] at ha
        exact ⟨lib, List.mem_cons_self _ _, Or.inr (List.mem_singleton.1 ha)⟩
    · rw [if_pos hg] at ha
      have hex : env.exists0 (join2 (join2 root "lib") (baseGo lib)) = false := by
        cases h' : env.exists0 (join2 (join2 root "lib") (baseGo lib))
        · rfl
        · exact absurd (by rw [h']; simp) hg
      by_cases hc1 : env.cmdOk (RelocAction.copyLib lib
          (join2 (join2 root "lib") (baseGo lib))) = true
      · rw [if_pos hc1] at ha
        by_cases hc2 : env.cmdOk (RelocAction.setRpath (join2 root "lib")
            (join2 (join2 root "lib") (baseGo lib))) = true
        · rw [if_pos hc2] at ha
          rcases List.mem_cons.1 ha with h | h
          · exact ⟨lib, List.mem_cons_self _ _, Or.inl ⟨h, hex⟩⟩
          · rcases List.mem_cons.1 h with h' | h'
            · exact ⟨lib, List.mem_cons_self _ _, Or.inr h'⟩
            · rcases ih _ a h' with ⟨l', hl', hcase⟩
              exact ⟨l', List.mem_cons_of_mem _ hl', hcase⟩
        · rw [if_neg hc2] at ha
          rcases List.mem_cons.1 ha with h | h
          · exact ⟨lib, List.mem_cons_self _ _, Or.inl ⟨h, hex⟩⟩
          · exact ⟨lib, List.mem_cons_self _ _, Or.inr (List.mem_singleton.1 h)⟩
      · rw [if_neg hc1] at ha
        exact ⟨lib, List.mem_cons_self _ _,
          Or.inl ⟨List.mem_singleton.1 ha, hex⟩⟩

/-- With all external commands succeeding, the dependency loop never
fails, whatever the library list (unresolved dependencies were already
dropped by the parser and cannot cause an error). -/
theorem patchDepsLoop_ok (env : RelocEnv) (root : String)
    (hcmd : ∀ c, env.cmdOk c = true) :
    ∀ libs copied, (patchDepsLoop env root libs copied).2.2 = .ok () := by
  intro libs
  induction libs with
  | nil => intro copied; rfl
  | cons lib rest ih =>
    intro copied
    unfold patchDepsLoop
    simp only []
    split
    · rw [hcmd, if_pos rfl, hcmd, if_pos rfl]
      exact ih _
    · rw [hcmd, if_pos rfl]
      exact ih _

/-- Every action of the relocation walk is either a `patchBinary` action
on some walked dynamic ELF executable of the tree, or a dependency-loop
action on a `lib`-directory destination. -/
theorem relocWalk_actions (env : RelocEnv) (root : String) :
    ∀ (tree : List FileNode) (copied : List String) (a : RelocAction),
      a ∈ (relocWalk env root tree copied).1 →
      (∃ g ∈ tree, g.isDir = false ∧ isELFExecutable g = true
         ∧ isStaticallyLinked g = false
         ∧ (a = RelocAction.setInterp loaderPath g.path
           ∨ a = RelocAction.setRpath (join2 root "lib") g.path))
      ∨ (∃ lib,
          (a = RelocAction.copyLib lib (join2 (join2 root "lib") (baseGo lib))
            ∧ env.exists0 (join2 (join2 root "lib") (baseGo lib)) = false)
          ∨ a = RelocAction.setRpath (join2 root "lib")
                (join2 (join2 root "lib") (baseGo lib))) := by
  intro tree
  induction tree with
  | nil => intro copied a ha; simp [relocWalk] at ha
  | cons f rest ih =>
    intro copied a ha
    unfold relocWalk at ha
    simp only [] at ha
    by_cases hvisit : (¬ f.isDir = true ∧ isELFExecutable f = true)
    · rw [if_pos hvisit] at ha
      by_cases hstat : isStaticallyLinked f = true
      · rw [if_pos hstat] at ha
        rcases ih copied a ha with ⟨g, hg, hrest⟩ | h
        · exact Or.inl ⟨g, List.mem_cons_of_mem _ hg, hrest⟩
        · exact Or.inr h
      · rw [if_neg hstat] at ha
        have hfd : f.isDir = false := by
          rcases hvisit with ⟨h1, _⟩
          cases h : f.isDir
          · rfl
          · exact absurd h h1
        have hfs : isStaticallyLinked f = false := by
          cases h : isStaticallyLinked f
          · rfl
          · exact absurd h hstat
        cases hpb : (patchBinary env root f).2 with
        | error e =>
          rw [hpb] at ha
          simp only [] at ha
          rcases patchBinary_actions env root f a ha with h | h
          · exact Or.inl ⟨f, List.mem_cons_self _ _, hfd, hvisit.2, hfs, Or.inl h⟩
          · exact Or.inl ⟨f, List.mem_cons_self _ _, hfd, hvisit.2, hfs, Or.inr h⟩
        | ok u =>
          rw [hpb] at ha
          simp only [] at ha
          cases hpd : (patchDependencies env root f.path copied).2.2 with
          | error e =>
            rw [hpd] at ha
            simp only [] at ha
            rcases List.mem_append.1 ha with h | h
            · rcases patchBinary_actions env root f a h with h' | h'
              · exact Or.inl ⟨f, List.mem_cons_self _ _, hfd, hvisit.2, hfs, Or.inl h'⟩
              · exact Or.inl ⟨f, List.mem_cons_self _ _, hfd, hvisit.2, hfs, Or.inr h'⟩
            · -- a dependency action
              unfold patchDependencies at h
              cases hld : env.lddOut f.path with
              | none => rw [hld] at h; simp at h
              | some out =>
                rw [hld] at h
                simp only [] at h
                rcases patchDepsLoop_actions env root _ _ a h with ⟨lib, _, hcase⟩
                exact Or.inr ⟨lib, hcase⟩
          | ok u2 =>
            rw [hpd] at ha
            simp only [] at ha
            rcases List.mem_append.1 ha with h | h
            · rcases List.mem_append.1 h with h' | h'
              · rcases patchBinary_actions env root f a h' with h2 | h2
                · exact Or.inl ⟨f, List.mem_cons_self _ _, hfd, hvisit.2, hfs, Or.inl h2⟩
                · exact Or.inl ⟨f, List.mem_cons_self _ _, hfd, hvisit.2, hfs, Or.inr h2⟩
              · unfold patchDependencies at h'
                cases hld : env.lddOut f.path with
                | none => rw [hld] at h'; simp at h'
                | some out =>
                  rw [hld] at h'
                  simp only [] at h'
                  rcases patchDepsLoop_actions env root _ _ a h' with ⟨lib, _, hcase⟩
                  exact Or.inr ⟨lib, hcase⟩
            · rcases ih _ a h with ⟨g, hg, hrest⟩ | h2
              · exact Or.inl ⟨g, List.mem_cons_of_mem _ hg, hrest⟩
              · exact Or.inr h2
    · rw [if_neg hvisit] at ha
      rcases ih copied a ha with ⟨g, hg, hrest⟩ | h
      · exact Or.inl ⟨g, List.mem_cons_of_mem _ hg, hrest⟩
      · exact Or.inr h

/-- Counterexample to C6 as stated: in the concrete tree, `libx.so` is a
statically linked regular ELF file, the relocation pass succeeds, and yet
the pass applies an RPATH patch (`patchelf --set-rpath`) to that file —
the dependency step of the dynamic binary `app` patches the pre-existing
library at `lib/libx.so`. -/
theorem reloc_static_rpath_cex :
    isStaticallyLinked libNode = true
    ∧ libNode.isDir = false
    ∧ libNode ∈ [appNode, libNode]
    ∧ (relocateAndPatchBinaries relocEnvA "/t" [appNode, libNode]).2 = .ok ()
    ∧ RelocAction.setRpath "/t/lib" libNode.path
        ∈ (relocateAndPatchBinaries relocEnvA "/t" [appNode, libNode]).1 := by
  decide

/-- C6 (amended).  A regular file classified as statically linked is never
patched as a walked binary: no interpreter patch targets it and no
dependency copy overwrites it (it already exists).  The only action the
pass may apply to it is the dependency step's RPATH patch, which always
sets the search path to the tree's `lib` directory. -/
theorem reloc_static_frame (env : RelocEnv) (root : String) (tree : List FileNode)
    (f : FileNode) (hstatic : isStaticallyLinked f = true)
    (huniq : ∀ g ∈ tree, g.path = f.path → g = f)
    (hex : env.exists0 f.path = true) :
    (∀ i, RelocAction.setInterp i f.path ∉ (relocateAndPatchBinaries env root tree).1)
    ∧ (∀ s, RelocAction.copyLib s f.path ∉ (relocateAndPatchBinaries env root tree).1)
    ∧ (∀ r p, RelocAction.setRpath r p ∈ (relocateAndPatchBinaries env root tree).1 →
        r = join2 root "lib") := by
  refine ⟨?_, ?_, ?_⟩
  · intro i hmem
    rcases relocWalk_actions env root tree [] _ hmem with ⟨g, hg, _, _, hgs, hcase⟩ | ⟨lib, hcase⟩
    · rcases hcase with h | h
      · have hpath : g.path = f.path := (RelocAction.setInterp.inj h.symm).2
        rw [huniq g hg hpath] at hgs
        rw [hstatic] at hgs
        exact Bool.true_eq_false.mp hgs
      · exact RelocAction.noConfusion h
    · rcases hcase with ⟨h, _⟩ | h
      · exact RelocAction.noConfusion h
      · exact RelocAction.noConfusion h
  · intro s hmem
    rcases relocWalk_actions env root tree [] _ hmem with ⟨g, _, _, _, _, hcase⟩ | ⟨lib, hcase⟩
    · rcases hcase with h | h
      · exact RelocAction.noConfusion h
      · exact RelocAction.noConfusion h
    · rcases hcase with ⟨h, hne⟩ | h
      · have : f.path = join2 (join2 root "lib") (baseGo lib) :=
          ((RelocAction.copyLib.inj h.symm).2).symm
        rw [← this] at hne
        rw [hex] at hne
        exact Bool.true_eq_false.mp hne
      · exact RelocAction.noConfusion h
  · intro r p hmem
    rcases relocWalk_actions env root tree [] _ hmem with ⟨g, _, _, _, _, hcase⟩ | ⟨lib, hcase⟩
    · rcases hcase with h | h
      · exact RelocAction.noConfusion h
      · exact (RelocAction.setRpath.inj h.symm).1.symm
    · rcases hcase with ⟨h, _⟩ | h
      · exact RelocAction.noConfusion h
      · exact (RelocAction.setRpath.inj h.symm).1.symm

/-- Witness for the amended C6 at the concrete tree: the static library
receives no interpreter patch and no copy, and the one RPATH patch that
does reach it uses the tree's lib directory. -/
theorem reloc_static_frame_witness :
    RelocAction.setInterp loaderPath "/t/lib/libx.so"
        ∉ (relocateAndPatchBinaries relocEnvA "/t" [appNode, libNode]).1
    ∧ RelocAction.copyLib "/usr/lib/libx.so" "/t/lib/libx.so"
        ∉ (relocateAndPatchBinaries relocEnvA "/t" [appNode, libNode]).1
    ∧ "/t/lib" = join2 "/t" "lib" := by
  have h := reloc_static_frame relocEnvA "/t" [appNode, libNode] libNode
    (by decide) (by decide) (by decide)
  exact ⟨h.1 loaderPath, h.2.1 "/usr/lib/libx.so",
    h.2.2 "/t/lib" "/t/lib/libx.so" (by decide)⟩

/-! ## C10: unresolved dependencies are silently dropped -/

/-- C10.  The `ldd` parser keeps only lines with more than two fields whose
second field contains `=>` and whose third field is not the word `not`,
returning that third field (the resolved path); in particular a
`lib => not found` line contributes nothing.  Consequently
`patchDependencies` only ever copies or patches parsed resolved libraries,
and with the external commands succeeding it completes without error no
matter how many `not found` lines the `ldd` output holds. -/
theorem parseLdd_not_found (out : String) :
    (∀ lib ∈ parseLddOutput out, lib ≠ "not" ∧ ∃ line ∈ strSplitChar '\n' out,
        (fieldsGo line).length > 2
        ∧ strContains ((fieldsGo line).getD 1 "") "=>" = true
        ∧ (fieldsGo line).getD 2 "" = lib)
    ∧ (∀ line lib0, fieldsGo line = [lib0, "=>", "not", "found"] →
        parseLddLine line = none)
    ∧ (∀ env : RelocEnv, ∀ root path copied,
        env.lddOut path = some out → (∀ c, env.cmdOk c = true) →
        (patchDependencies env root path copied).2.2 = .ok ()
        ∧ ∀ a ∈ (patchDependencies env root path copied).1,
            ∃ lib ∈ parseLddOutput out,
              a = RelocAction.copyLib lib (join2 (join2 root "lib") (baseGo lib))
              ∨ a = RelocAction.setRpath (join2 root "lib")
                    (join2 (join2 root "lib") (baseGo lib))) := by
  refine ⟨?_, ?_, ?_⟩
  · intro lib hmem
    rcases List.mem_filterMap.1 hmem with ⟨line, hline, hparse⟩
    unfold parseLddLine at hparse
    by_cases hcond : (fieldsGo line).length > 2
        ∧ strContains ((fieldsGo line).getD 1 "") "=>" = true
        ∧ (fieldsGo line).getD 2 "" ≠ "not"
    · rw [if_pos hcond] at hparse
      have hl : (fieldsGo line).getD 2 "" = lib := Option.some.inj hparse
      exact ⟨hl ▸ hcond.2.2, line, hline, hcond.1, hcond.2.1, hl⟩
    · rw [if_neg hcond] at hparse
      exact absurd hparse (by simp)
  · intro line lib0 hf
    unfold parseLddLine
    simp only [hf]
    simp [List.getD]
  · intro env root path copied hld hcmd
    constructor
    · unfold patchDependencies
      rw [hld]
      simp only []
      exact patchDepsLoop_ok env root hcmd _ _
    · intro a ha
      unfold patchDependencies at ha
      rw [hld] at ha
      simp only [] at ha
      rcases patchDepsLoop_actions env root _ _ a ha with ⟨lib, hlib, hcase⟩
      rcases hcase with ⟨h, _⟩ | h
      · exact ⟨lib, hlib, Or.inl h⟩
      · exact ⟨lib, hlib, Or.inr h⟩

/-- Witness for C10 on the sample `ldd` output: the resolved library is
returned, the `not found` line parses to nothing, and the dependency step
of the concrete run succeeds despite the unresolved dependency. -/
theorem parseLdd_not_found_witness :
    ("/usr/lib/libx.so" : String) ≠ "not"
    ∧ parseLddLine "\tlibzzz.so => not found" = none
    ∧ (patchDependencies relocEnvA "/t" "/t/bin/app" []).2.2 = .ok () := by
  have h := parseLdd_not_found lddSample
  refine ⟨(h.1 "/usr/lib/libx.so" (by decide)).1, ?_, ?_⟩
  · exact h.2.1 "\tlibzzz.so => not found" "libzzz.so" (by decide)
  · exact (h.2.2 relocEnvA "/t" "/t/bin/app" [] (by decide) (fun c => rfl)).1

/-! ## C7: the extension-release marker -/

/-- C7.  Every successful `createRootfs` run writes the marker file
`usr/lib/extension-release.d/extension-release.<name>` inside the tree —
the requested sysext name embedded in the file name — and its content is
the two `KEY=VALUE` lines `ID=_any` (identity key, wildcard OS) and
`EXTENSION_RELOAD_MANAGER=1` (reload-capability flag). -/
theorem createRootfs_marker (env : SysextEnv) (image name imageSource : String)
    (hok : (createRootfs env image name imageSource).2 = .ok ()) :
    Ev.writeMarker
        (joinGo [join2 env.sysextRootfsDir (env.getID image),
          "/usr/lib/extension-release.d/", "extension-release." ++ name])
        markerContent
      ∈ (createRootfs env image name imageSource).1
    ∧ strSplitChar '\n' markerContent
        = ["ID=_any", "EXTENSION_RELOAD_MANAGER=1", ""] := by
  refine ⟨?_, by decide⟩
  rcases hcr : createRootfs env image name imageSource with ⟨t, r⟩
  rw [hcr] at hok
  simp only [] at hok
  simp only []
  unfold createRootfs at hcr
  simp only [] at hcr
  split at hcr
  · have hr := (Prod.mk.inj hcr).2
    rw [← hr] at hok
    exact absurd hok (by simp)
  · repeat' first
      | simp only [] at hcr
      | split at hcr
    all_goals
      obtain ⟨ht, hr⟩ := Prod.mk.inj hcr
      first
        | exact absurd (hr.trans hok) (fun hcontra => Except.noConfusion hcontra)
        | (rw [← ht]; simp)

/-- Witness for C7: the successful concrete run writes the marker with the
name `n1` embedded. -/
theorem createRootfs_marker_witness :
    Ev.writeMarker
        (joinGo [join2 envA.sysextRootfsDir (envA.getID "img"),
          "/usr/lib/extension-release.d/", "extension-release." ++ "n1"])
        markerContent
      ∈ (createRootfs envA "img" "n1" "src").1
    ∧ strSplitChar '\n' markerContent
        = ["ID=_any", "EXTENSION_RELOAD_MANAGER=1", ""] :=
  createRootfs_marker envA "img" "n1" "src" (by decide)

/-! ## C8: ext4 image sizing -/

/-- Under an all-succeeding oracle, the source-ensuring step returns ok. -/
theorem ensureImage_ok (env : SysextEnv) (img : String) (p : Bool)
    (hev : ∀ e, env.evOk e = true) :
    (ensureImage env img p).2.1 = .ok () := by
  unfold ensureImage
  split
  · rfl
  · simp only []
    rw [hev]
    simp

/-- C8.  For the ext4 format, after a successful assembly the raw file is
first truncated to `round(bytes/1024/1024) + 32` megabytes — the tree's
on-disk usage in bytes divided by `1024·1024`, rounded to the nearest
integer, plus the fixed 32 MB margin, printed as `<n>M` — and only then
formatted (`mkfs.ext4`) and shrunk (`resize2fs`). -/
theorem createSysext_ext4_size (env : SysextEnv) (image name imageSource : String)
    (hev : ∀ e, env.evOk e = true)
    (hcr : (createRootfs env image name
        (if imageSource = "" then image else imageSource)).2 = .ok ())
    (hdu : 0 ≤ discUsage env.treeFiles) :
    (∃ pre, CreateSysext env image name "ext4" imageSource
      = (pre ++ [Ev.truncate (discUsageMegaBytes env.treeFiles)
                   (join2 env.sysextDir (name ++ ".raw")),
                 Ev.mkfsExt4 (join2 env.sysextRootfsDir (env.getID image))
                   (join2 env.sysextDir (name ++ ".raw")),
                 Ev.resize2fs (join2 env.sysextDir (name ++ ".raw"))], .ok ()))
    ∧ discUsageMegaBytes env.treeFiles
        = toString (⌊(discUsage env.treeFiles : ℚ) / (1024 * 1024 : ℚ) + 1 / 2⌋ + 32)
            ++ "M" := by
  constructor
  · unfold CreateSysext
    rw [if_neg (by decide)]
    simp only []
    have hs1 : ∃ evs1 p1,
        (if (if imageSource = "" then image else imageSource) ≠ image then
          ensureImage env (if imageSource = "" then image else imageSource) false
        else ([], Except.ok (), false)) = (evs1, Except.ok (), p1) := by
      by_cases hc : (if imageSource = "" then image else imageSource) ≠ image
      · rw [if_pos hc]
        exact ⟨(ensureImage env (if imageSource = "" then image else imageSource) false).1,
          (ensureImage env (if imageSource = "" then image else imageSource) false).2.2,
          by rw [← ensureImage_ok env (if imageSource = "" then image else imageSource) false hev]⟩
      · rw [if_neg hc]
        exact ⟨[], false, rfl⟩
    rcases hs1 with ⟨evs1, p1, hs1⟩
    rw [hs1]
    simp only []
    rw [if_neg (by simp [hev])]
    have hs2 : ensureImage env (if imageSource = "" then image else imageSource) p1
        = ((ensureImage env (if imageSource = "" then image else imageSource) p1).1,
           Except.ok (),
           (ensureImage env (if imageSource = "" then image else imageSource) p1).2.2) := by
      rw [← ensureImage_ok env (if imageSource = "" then image else imageSource) p1 hev]
    rw [hs2]
    simp only []
    have hcr' : createRootfs env image name (if imageSource = "" then image else imageSource)
        = ((createRootfs env image name (if imageSource = "" then image else imageSource)).1,
           Except.ok ()) := by
      rw [← hcr]
    rw [hcr']
    simp only []
    rw [if_neg (by simp [hev])]
    rw [if_neg (by decide), if_neg (by decide)]
    rw [if_neg (by simp [hev]), if_neg (by simp [hev]), if_neg (by simp [hev])]
    exact ⟨_, rfl⟩
  · unfold discUsageMegaBytes
    rw [roundDivHalfAway_eq_floor _ _ hdu (by norm_num)]
    norm_num

/-- Witness for C8: the 100 MiB concrete tree yields a raw image truncated
to exactly `132M` before `mkfs.ext4` runs. -/
theorem createSysext_ext4_size_witness :
    ∃ pre, CreateSysext envA "img" "name" "ext4" "src"
      = (pre ++ [Ev.truncate "132M" (join2 envA.sysextDir ("name" ++ ".raw")),
                 Ev.mkfsExt4 (join2 envA.sysextRootfsDir (envA.getID "img"))
                   (join2 envA.sysextDir ("name" ++ ".raw")),
                 Ev.resize2fs (join2 envA.sysextDir ("name" ++ ".raw"))], .ok ()) := by
  obtain ⟨⟨pre, h1⟩, h2⟩ := createSysext_ext4_size envA "img" "name" "src"
    (fun e => rfl) (by decide) (by decide)
  have hs : discUsageMegaBytes envA.treeFiles = "132M" := by decide
  rw [hs] at h1
  exact ⟨pre, h1⟩

/-! ## C9: the filesystem-kind guard -/

/-- The source-ensuring step either succeeds or its trace is the single
pull event. -/
theorem ensureImage_cases (env : SysextEnv) (img : String) (p : Bool) :
    (ensureImage env img p).2.1 = .ok () ∨ (ensureImage env img p).1 = [Ev.pull img] := by
  unfold ensureImage
  split
  · exact Or.inl rfl
  · simp only []
    split
    · exact Or.inl rfl
    · exact Or.inr rfl

set_option maxHeartbeats 1000000 in
/-- C9.  `CreateSysext` rejects every filesystem kind outside
`{squashfs, btrfs, ext4}` with the invalid-argument error
"unsupported fs type" as its very first check — with an empty trace, so no
pull, no rootfs cleanup and no extraction happened — while every kind in
the set passes the check and the run proceeds (its trace is non-empty). -/
theorem createSysext_fs_guard (env : SysextEnv) (image name fs imageSource : String) :
    ((fs ≠ "squashfs" ∧ fs ≠ "btrfs" ∧ fs ≠ "ext4") →
      CreateSysext env image name fs imageSource = ([], .error "unsupported fs type"))
    ∧ ((fs = "squashfs" ∨ fs = "btrfs" ∨ fs = "ext4") →
      (CreateSysext env image name fs imageSource).1 ≠ []) := by
  constructor
  · intro h
    unfold CreateSysext
    rw [if_pos h]
  · intro h
    unfold CreateSysext
    rw [if_neg (by tauto)]
    simp only []
    split
    · next e heq =>
        by_cases hc : (if imageSource = "" then image else imageSource) ≠ image
        · rw [if_pos hc] at heq ⊢
          rcases ensureImage_cases env (if imageSource = "" then image else imageSource) false
            with hok | htr
          · rw [hok] at heq
            exact absurd heq (by simp)
          · simp only []
            rw [htr]
            simp
        · rw [if_neg hc] at heq
          exact absurd heq (by simp)
    · repeat' split
      all_goals
        intro hc
        have hlen := congrArg List.length hc
        simp only [List.length_append, List.length_cons, List.length_nil] at hlen
        omega

/-- Witness for C9: `xfs` is rejected up front with an empty trace, while
`btrfs` passes the check and the run leaves a non-empty trace. -/
theorem createSysext_fs_guard_witness :
    CreateSysext envA "img" "name" "xfs" "src" = ([], .error "unsupported fs type")
    ∧ (CreateSysext envA "img" "name" "btrfs" "src").1 ≠ [] := by
  refine ⟨?_, ?_⟩
  · exact (createSysext_fs_guard envA "img" "name" "xfs" "src").1 (by decide)
  · exact (createSysext_fs_guard envA "img" "name" "btrfs" "src").2 (by tauto)

end OciSysext
